import Mathlib

/-!
Shallow embedding of the gobib TeX-to-BibTeX converter
(pkg/gobib/api.go) and proofs about its specification.

Strings are modelled as Lean strings; Go byte indexing is modelled by
character indexing, which agrees with the source on the ASCII inputs
all concrete theorems use.
-/

/-- The empty string, used as the zero value of Go string variables. -/
def emptyS : String := ""

/-- Go unicode.IsSpace restricted to the ASCII whitespace characters
that strings.TrimSpace can meet in a single input line. -/
def isTrimSpace (c : Char) : Bool :=
  c = ' ' || c = '\t' || c = '\n' || c = '\r' ||
  c = Char.ofNat 11 || c = Char.ofNat 12

/-- Model of strings.TrimSpace: drop whitespace from both ends. -/
def trimS (s : String) : String :=
  ⟨((s.data.dropWhile isTrimSpace).reverse.dropWhile isTrimSpace).reverse⟩

/-- All positions of string l at which pat occurs as a substring
(used to model strings.Contains, strings.Index, strings.LastIndex). -/
def subPositions (pat l : List Char) : List Nat :=
  (List.range (l.length + 1)).filter (fun i => pat.isPrefixOf (l.drop i))

/-- Model of strings.Contains l pat. -/
def containsSub (l pat : List Char) : Bool :=
  decide (subPositions pat l ≠ [])

/-- Model of strings.LastIndex l pat (None instead of -1). -/
def lastIdxSub (pat l : List Char) : Option Nat :=
  (subPositions pat l).getLast?

/-- Model of strings.Index for a one-character pattern (None for -1). -/
def fstIdxCh (c : Char) : List Char → Option Nat
  | [] => none
  | a :: l => if a = c then some 0 else (fstIdxCh c l).map (fun i => i + 1)

/-- Model of strings.LastIndex for a one-character pattern (None for -1). -/
def lastIdxCh (c : Char) : List Char → Option Nat
  | [] => none
  | a :: l =>
    match lastIdxCh c l with
    | some i => some (i + 1)
    | none => if a = c then some 0 else none

/-- The characters of the BibItem constant, the marker of a new entry. -/
def bibItemTok : List Char := ("\\bibitem\x7b").data

/-- The characters of the EndBibliography constant. -/
def endBibTok : List Char := ("\\end\x7bthebibliography\x7d").data

/-- The characters of the URLToken constant. -/
def urlTok : List Char := ("\\url\x7b").data

/-- Model of extractURL (api.go 236-255): find the last occurrence of
the URL token, then collect the characters after it up to the first
closing brace (or to the end of the line when no brace follows).
Returns the empty string when the token is absent. -/
def extractURL (line : String) : String :=
  match lastIdxSub urlTok line.data with
  | none => emptyS
  | some i => ⟨(line.data.drop (i + 5)).takeWhile (fun c => c != '}')⟩

/-- The three outcomes of extractKey: a key, the ErrSyntax return, or
the runtime panic of the slice expression. -/
inductive KeyOutcome where
  | ok (k : String)
  | err
  | panicked
deriving DecidableEq

/-- Model of extractKey (api.go 215-231): requires the bibitem marker,
then slices the text strictly between the first opening brace and the
last closing brace; err models the ErrSyntax return. When the first
opening brace lies beyond the last closing brace the Go slice
line[s+1:e] has s+1 greater than e and panics, killing the divider
goroutine: panicked models that. -/
def extractKeyGo (line : String) : KeyOutcome :=
  if containsSub line.data bibItemTok = false then KeyOutcome.err
  else
    match lastIdxCh '}' line.data, fstIdxCh '{' line.data with
    | none, _ => KeyOutcome.err
    | some _, none => KeyOutcome.err
    | some e, some s =>
      if s + 1 ≤ e then KeyOutcome.ok ⟨(line.data.drop (s + 1)).take (e - (s + 1))⟩
      else KeyOutcome.panicked

/-- Space characters skipped by the %d verb of fmt.Sscanf before a
number: the fmt space table covers 0x09-0x0D and the blank, so tab,
vertical tab, form feed and a carriage return are all skipped. A
newline is not skipped: Sscanf rejects it with an error that
extractYear discards, leaving year = 0 - which is also what the scan
below yields on a leading newline, since a newline is no digit. -/
def isScanSpace (c : Char) : Bool :=
  c = ' ' || c = '\t' || c = '\r' || c = Char.ofNat 11 || c = Char.ofNat 12

/-- Numeric value of a list of decimal digit characters. -/
def digitsVal (l : List Char) : Nat :=
  l.foldl (fun a c => 10 * a + (c.toNat - 48)) 0

/-- One signed scan step of fmt.Sscanf %4d: take at most w digit
characters and return sgn times their value; 0 when no digit is found
(the Sscanf error is discarded by extractYear, leaving year = 0). -/
def scanVal (w : Nat) (r : List Char) (sgn : Int) : Int :=
  let ds := (r.takeWhile Char.isDigit).take w
  if ds = [] then 0 else sgn * (digitsVal ds : Int)

/-- Model of fmt.Sscanf(line, %4d, and year) as used by extractYear:
skip leading blanks, accept an optional sign (counted in the width of
four), then read at most four digits. -/
def sscan4d (l : List Char) : Int :=
  match l.dropWhile isScanSpace with
  | [] => 0
  | c :: r =>
    if c = '+' then scanVal 3 r 1
    else if c = '-' then scanVal 3 r (-1)
    else scanVal 4 (c :: r) 1

/-- Model of extractYear (api.go 257-264): keep the scanned number only
when it is non-zero and the whole field has at most six characters. -/
def extractYear (field : String) : Int :=
  let year := sscan4d field.data
  if year ≠ 0 ∧ field.data.length ≤ 6 then year else 0

/-- Model of strings.Split(s, comma): cut s at every comma. -/
def splitAux : List Char → List Char → List String
  | [], acc => [⟨acc.reverse⟩]
  | c :: r, acc =>
    if c = ',' then ⟨acc.reverse⟩ :: splitAux r [] else splitAux r (c :: acc)

/-- Comma splitting of a raw-record body (api.go 377). -/
def splitComma (s : String) : List String := splitAux s.data []

/-- The Config fields the core pipeline reads. The visited date is an
opaque token: the code only copies it around. -/
structure Config where
  defaultYear : Int
  defaultVisited : Option Nat

/-- A dividerResult: bibitem key (empty when absent) and unparsed body. -/
structure RawRecord where
  key : String
  value : String
deriving DecidableEq

/-- The fields of AdvancedOnlineBibtexEntry filled in by the parser. -/
structure Entry where
  key : String
  authors : List String
  title : String
  year : Int
  url : String
  visited : Option Nat
deriving DecidableEq

/-- Model of GenKey (api.go 108-112): title-year-firstAuthor. None
models the index-out-of-range panic of Authors[0] on an empty author
list. -/
def genKey (title : String) (year : Int) (authors : List String) : Option String :=
  match authors with
  | [] => none
  | a :: _ => some (title ++ ("-") ++ toString year ++ ("-") ++ a)

/-- The switch on the number of comma tokens (api.go 384-431), giving
(authors, title, year) before defaults and trimming are applied. The
empty-token-list case is unreachable: strings.Split never returns an
empty slice. -/
def disamb (url : String) (tokens : List String) : List String × String × Int :=
  match tokens with
  | [] => ([], emptyS, 0)
  | [t0] => ([], t0, 0)
  | [t0, t1] => ([t0], if url = emptyS then t1 else emptyS, 0)
  | [t0, t1, t2] =>
    let y := extractYear t2
    if url = emptyS ∧ y = 0 then ([t0, t1], t2, y) else ([t0], t1, y)
  | t0 :: t1 :: t2 :: t3 :: ts =>
    let tokens := t0 :: t1 :: t2 :: t3 :: ts
    let n := tokens.length
    let la0 := n - 2
    let ti0 := n - 1
    let la1 := if url = emptyS then la0 else la0 - 1
    let ti1 := if url = emptyS then ti0 else ti0 - 1
    let y1 := extractYear (tokens.getD (n - 1) emptyS)
    let y := if y1 = 0 then extractYear (tokens.getD (n - 2) emptyS) else y1
    let la2 := if y = 0 then la1 else la1 - 1
    let ti2 := if y = 0 then ti1 else ti1 - 1
    (tokens.take (la2 + 1), tokens.getD ti2 emptyS, y)

/-- Key assignment (api.go 456-460): keep a non-empty record key
verbatim, otherwise synthesize one with GenKey (None when GenKey
panics on an empty author list). -/
def entryKey (rawKey title : String) (year : Int) (authors : List String) : Option String :=
  if rawKey = emptyS then genKey title year authors else some rawKey

/-- Model of one iteration of parser (api.go 364-465): split the body,
extract the URL from the whole body, disambiguate the token roles,
apply the configured defaults, trim title and authors, and assign the
key. None models the GenKey panic on an empty author list. -/
def parseRecord (cfg : Config) (item : RawRecord) : Option Entry :=
  let tokens := splitComma item.value
  let url := extractURL item.value
  let r := disamb url tokens
  let authors := r.1.map trimS
  let title := trimS r.2.1
  let year := if r.2.2 = 0 then cfg.defaultYear else r.2.2
  (entryKey item.key title year authors).map
    (fun k => ⟨k, authors, title, year, url, cfg.defaultVisited⟩)

/-- The errors the divider can report. -/
inductive DivErr where
  | bibEmpty
  | bibUnclosed
deriving DecidableEq

/-- Observable actions of the divider goroutine, in program order: a
record sent on stage1OutChannel, an error sent on errorChannel, the
closing of stage1OutChannel, or the death of the goroutine in the
extractKey panic (after which nothing more is sent and the channel is
never closed). -/
inductive DivEvent where
  | emit (key value : String)
  | errEv (e : DivErr)
  | closed
  | crashed
deriving DecidableEq

/-- Accumulation of one body line (api.go 354-357): trim it and append
it to the builder when non-empty, with no separator. -/
def appendLine (acc l : String) : String :=
  let t := trimS l
  if 0 < t.length then acc ++ t else acc

/-- The divider's second loop (api.go 315-359): emit a record at each
new bibitem marker (the record is sent before extractKey runs on the
marker line, whose error is discarded as an empty key and whose panic
kills the goroutine), stop at the end marker, and on end of input send
ErrBibUnclosed followed by the partial record before closing. -/
def divLoop2 (key acc : String) : List String → List DivEvent
  | [] => [DivEvent.errEv DivErr.bibUnclosed, DivEvent.emit key acc, DivEvent.closed]
  | l :: rest =>
    if containsSub l.data bibItemTok then
      DivEvent.emit key acc ::
        (match extractKeyGo l with
         | KeyOutcome.ok k => divLoop2 k emptyS rest
         | KeyOutcome.err => divLoop2 emptyS emptyS rest
         | KeyOutcome.panicked => [DivEvent.crashed])
    else if containsSub l.data endBibTok then
      [DivEvent.emit key acc, DivEvent.closed]
    else
      divLoop2 key (appendLine acc l) rest

/-- The divider's first loop (api.go 291-312): skip lines until the
first bibitem marker (a failing extractKey there leaves the key empty,
a panicking one kills the goroutine); on end of input report
ErrBibEmpty and close. -/
def divLoop1 : List String → List DivEvent
  | [] => [DivEvent.errEv DivErr.bibEmpty, DivEvent.closed]
  | l :: rest =>
    if containsSub l.data bibItemTok then
      match extractKeyGo l with
      | KeyOutcome.ok k => divLoop2 k emptyS rest
      | KeyOutcome.err => divLoop2 emptyS emptyS rest
      | KeyOutcome.panicked => [DivEvent.crashed]
    else
      divLoop1 rest

/-- The full divider (api.go 273-360) on an input already cut into
lines, as the sequence of channel actions it performs. -/
def dividerRun (lines : List String) : List DivEvent := divLoop1 lines

/-- Observable actions of the writer goroutine (api.go 481-490): a call
of Output.Write for one rendered entry, an error sent on errorChannel,
or the completion signal sent on okChannel. -/
inductive WEvent where
  | wrote (s : String)
  | werr
  | wok
deriving DecidableEq

/-- Model of writer (api.go 481-490) on its drained input queue. Each
input pair is a rendered entry together with the success of the
Output.Write call on it (the output device decides the Boolean). The
loop reports a failed write on the error channel and continues; after
the loop the completion signal is sent. -/
def writerRun : List (String × Bool) → List WEvent
  | [] => [WEvent.wok]
  | (s, ok) :: rest =>
    WEvent.wrote s :: (if ok then writerRun rest else WEvent.werr :: writerRun rest)

/-- True when some emitted record strictly precedes some error in a
divider trace (the order claimed for the unclosed-bibliography case). -/
def isEmitEv : DivEvent → Bool
  | DivEvent.emit _ _ => true
  | _ => false

/-- True for the error events of a divider trace. -/
def isErrEv : DivEvent → Bool
  | DivEvent.errEv _ => true
  | _ => false

/-- Whether the first emitted record of a trace is followed, strictly
later, by an error event. -/
def emitPrecedesError (tr : List DivEvent) : Bool :=
  match tr.dropWhile (fun e => isEmitEv e = false) with
  | [] => false
  | _ :: rest => rest.any isErrEv

/-- A bibitem marker line carrying the given key. -/
def mkMarker (k : String) : String := ⟨bibItemTok ++ k.data ++ ['}']⟩

/-- The source lines of one bibliography entry: its marker line
followed by its body lines. -/
def mkEntryLines (e : String × List String) : List String :=
  mkMarker e.1 :: e.2

/-- The end-of-bibliography marker line. -/
def endBibLine : String := ⟨endBibTok⟩

/-- Concatenation, with no separator, of the whitespace-trimmed
non-empty lines of a body (the wording of the specification; appending
a trimmed-to-empty line adds nothing, so no filter is needed). -/
def trimmedConcat : List String → String
  | [] => emptyS
  | l :: ls => trimS l ++ trimmedConcat ls

/-- The year the default case of the parser finds in the last two
tokens (api.go 418-421): the last token first, the second-to-last as
fallback. -/
def trailingYear (tokens : List String) : Int :=
  let y1 := extractYear (tokens.getD (tokens.length - 1) emptyS)
  if y1 = 0 then extractYear (tokens.getD (tokens.length - 2) emptyS) else y1

/-- Backward index shift caused by a found URL (api.go 413-416). -/
def urlShift (url : String) : Nat := if url = emptyS then 0 else 1

/-- Backward index shift caused by a found year (api.go 423-427). -/
def yearShift (y : Int) : Nat := if y = 0 then 0 else 1

/-- A configuration with no defaults, for the concrete instances. -/
def cfg0 : Config := ⟨0, none⟩

/-- The disambiguation example body of the specification. -/
def exBody : String :=
  "Ross Anderson, Why Cryptosystems Fail, 1909, \\url\x7bexample.com/ra/wcf.pdf\x7d"

/-- A single-token body: no comma, so the whole body is the title. -/
def singleRec : RawRecord := ⟨emptyS, "Why Cryptosystems Fail"⟩

/-- A record whose empty key must be synthesized from title, year and
first author. -/
def recFoo : RawRecord := ⟨emptyS, "foo, bar, 2018"⟩

/-- Expected parse of recFoo under cfg0. -/
def eFoo : Entry := ⟨"bar-2018-foo", ["foo"], "bar", 2018, emptyS, none⟩

/-- Two-token body without a URL. -/
def recA : RawRecord := ⟨"wcdf", "Ross Anderson, Why Cryptosystems Fail"⟩

/-- Two-token body with a URL. -/
def recB : RawRecord := ⟨"wcfu", "Ross Anderson, \\url\x7bx.pdf\x7d"⟩

/-- The extractURL example line of the specification. -/
def exLine : String := "hello, \\url\x7bexample.com/x\x7d, hey"

/-- A line whose URL token is never closed. -/
def exOpen : String := "\\url\x7babc"

/-- An unclosed bibliography: one marker, one body line, no end marker. -/
def lines5 : List String := [mkMarker ("k"), "body"]

/-- The single unclosed entry of the concrete C5 instance; its lines
are exactly lines5. -/
def elast5 : String × List String := (("k"), [("body")])

/-- A writer input whose first write fails and second write succeeds. -/
def wlist1 : List (String × Bool) := [(("a"), false), (("b"), true)]

/-- Two well-formed bibliography entries for the divider instance. -/
def entries4 : List (String × List String) :=
  [(("wcf"), [("  Ross Anderson, Why Cryptosystems Fail  "), ("extra")]),
   (("aass"), [("Asking Alexandria, Someone Somewhere, 2011")])]

/-- A line of preamble before the first marker. -/
def pre4 : List String := [("intro line")]

/-- Lines after the end marker, never read by the divider. -/
def tail4 : List String := [("junk")]

/-- A three-character field holding a number of fewer than four digits. -/
def yr190 : String := "190"

/-- A six-character field whose leading four digits are followed by
letters. -/
def yr1909ab : String := "1909ab"

/-- A plain four-digit year field. -/
def yr1909 : String := "1909"

/-- Helper: a pattern that never occurs has no last occurrence. -/
theorem lastIdxSub_eq_none (l pat : List Char) (h : containsSub l pat = false) :
    lastIdxSub pat l = none := by
  have h1 : subPositions pat l = [] := not_not.mp (of_decide_eq_false h)
  simp [lastIdxSub, h1]

/-- Helper: takeWhile keeps a list all of whose elements satisfy p. -/
theorem takeWhile_all {α : Type} {p : α → Bool} :
    ∀ (l : List α), (∀ c ∈ l, p c = true) → l.takeWhile p = l
  | [], _ => rfl
  | c :: l, h => by
    have hc := h c (List.mem_cons_self c l)
    simp only [List.takeWhile_cons, hc, if_true]
    exact congrArg (c :: ·) (takeWhile_all l (fun x hx => h x (List.mem_cons_of_mem c hx)))

/-- C8: extractURL never fails; it is a no-op returning the empty
string on text with no URL token, idempotent on such text, and on the
example line it returns exactly the text between the last URL token
and the next closing brace. -/
theorem extractURL_noop_idempotent (s : String)
    (h : containsSub s.data urlTok = false) :
    extractURL s = emptyS ∧ extractURL (extractURL s) = emptyS ∧
    extractURL exLine = ("example.com/x") := by
  have h1 : extractURL s = emptyS := by
    unfold extractURL
    rw [lastIdxSub_eq_none _ _ h]
  refine ⟨h1, ?_, by decide⟩
  rw [h1]
  decide

/-- Witness for C8 at a concrete token-free line. -/
theorem extractURL_noop_idempotent_witness :
    extractURL ("plain text line") = emptyS ∧
    extractURL (extractURL ("plain text line")) = emptyS ∧
    extractURL exLine = ("example.com/x") :=
  extractURL_noop_idempotent ("plain text line") (by decide)

/-- C10: when the last URL token is never closed, extractURL
returns the whole remainder of the line after the token, and that
remainder is non-empty exactly when something follows the token. -/
theorem extractURL_unclosed_brace (s : String) (i : Nat)
    (h1 : lastIdxSub urlTok s.data = some i)
    (h2 : ∀ c ∈ s.data.drop (i + 5), c ≠ '}') :
    extractURL s = ⟨s.data.drop (i + 5)⟩ ∧
    (s.data.drop (i + 5) ≠ [] → extractURL s ≠ emptyS) := by
  have hall : ∀ c ∈ s.data.drop (i + 5), (fun c => c != '}') c = true := by
    intro c hc
    simpa using h2 c hc
  have hfst : extractURL s = ⟨s.data.drop (i + 5)⟩ := by
    unfold extractURL
    rw [h1]
    exact congrArg String.mk (takeWhile_all _ hall)
  refine ⟨hfst, fun hne heq => hne ?_⟩
  rw [hfst] at heq
  exact congrArg String.data heq

/-- Witness for C10 at a line whose URL token is unclosed. -/
theorem extractURL_unclosed_brace_witness :
    extractURL exOpen = ⟨exOpen.data.drop (0 + 5)⟩ ∧
    (exOpen.data.drop (0 + 5) ≠ [] → extractURL exOpen ≠ emptyS) :=
  extractURL_unclosed_brace exOpen 0 (by decide) (by decide)

/-- C2: the parser does crash on a malformed body. With an empty record
key and a single-token body the author list stays empty, and GenKey
indexes Authors[0] out of range; the model returns none exactly there,
no entry is produced. -/
theorem parser_crashes_on_single_token_empty_key :
    parseRecord cfg0 singleRec = none := by decide

/-- C3 counterexample: extractYear accepts a number of fewer than four
digits, and a four-digit number that does not consume the whole field;
the claim demands 0 in both cases. -/
theorem extractYear_partial_scan_counterexample :
    extractYear yr190 = 190 ∧ extractYear yr1909ab = 1909 := by decide

/-- C6 counterexample: after a failed write the writer keeps going; it
writes the next entry and still emits the completion signal. -/
theorem writer_not_terminal_counterexample :
    writerRun wlist1 =
      [WEvent.wrote ("a"), WEvent.werr, WEvent.wrote ("b"), WEvent.wok] ∧
    WEvent.wok ∈ writerRun wlist1 := by decide

/-- C6 amended: a failed write is reported on the error channel, but
the writer then continues with every later entry and emits the
completion signal once its input is drained. -/
theorem writer_reports_and_continues (l : List (String × Bool)) :
    writerRun l =
      (l.map (fun p => WEvent.wrote p.1 :: (if p.2 then [] else [WEvent.werr]))).flatten
        ++ [WEvent.wok] := by
  induction l with
  | nil => rfl
  | cons p rest ih =>
    cases p with
    | mk s ok => cases ok <;> simp [writerRun, ih]

/-- C9: the key of every parsed entry is the record key verbatim when
that is non-empty, and otherwise the synthesized
title-year-firstAuthor string built from the resolved fields. -/
theorem key_synthesis (cfg : Config) (item : RawRecord) (e : Entry)
    (h : parseRecord cfg item = some e) :
    e.key = if item.key = emptyS
      then e.title ++ ("-") ++ toString e.year ++ ("-") ++ e.authors.headD emptyS
      else item.key := by
  simp only [parseRecord] at h
  rcases hek : entryKey item.key
      (trimS (disamb (extractURL item.value) (splitComma item.value)).2.1)
      (if (disamb (extractURL item.value) (splitComma item.value)).2.2 = 0
        then cfg.defaultYear
        else (disamb (extractURL item.value) (splitComma item.value)).2.2)
      ((disamb (extractURL item.value) (splitComma item.value)).1.map trimS)
    with _ | k
  · rw [hek] at h
    simp at h
  · rw [hek] at h
    simp only [Option.map_some'] at h
    injection h with h
    subst h
    by_cases hk : item.key = emptyS
    · rw [if_pos hk]
      unfold entryKey at hek
      rw [if_pos hk] at hek
      rcases hA : (disamb (extractURL item.value) (splitComma item.value)).1.map trimS
        with _ | ⟨a, as⟩
    <;> rw [hA] at hek
      · simp [genKey] at hek
      · simp only [genKey] at hek
        injection hek with hek
        simp [← hek, hA]
    · rw [if_neg hk]
      unfold entryKey at hek
      rw [if_neg hk] at hek
      injection hek with hek
      simp [hek]

/-- Witness for C9: the record with empty key, author foo, title bar
and year 2018 gets the synthesized key bar-2018-foo. -/
theorem key_synthesis_witness :
    ∃ e, parseRecord cfg0 recFoo = some e ∧ e.key = ("bar-2018-foo") := by
  refine ⟨eFoo, by decide, ?_⟩
  have h := key_synthesis cfg0 recFoo eFoo (by decide)
  exact h.trans (by decide)

/-- Helper: trimming the empty string is the empty string. -/
theorem trimS_emptyS : trimS emptyS = emptyS := rfl

/-- C7: with exactly two comma tokens, token 0 is the one-element
author list, and token 1 becomes the (trimmed) title exactly when no
URL was found in the body; with a URL present the title stays empty. -/
theorem parser_two_token_case (cfg : Config) (key body : String)
    (h : (splitComma body).length = 2) :
    ∃ e, parseRecord cfg ⟨key, body⟩ = some e ∧
      e.authors = [trimS ((splitComma body).getD 0 emptyS)] ∧
      e.title = (if extractURL body = emptyS
                 then trimS ((splitComma body).getD 1 emptyS) else emptyS) := by
  obtain ⟨t0, t1, hs⟩ := List.length_eq_two.mp h
  have hp : parseRecord cfg ⟨key, body⟩ =
      (entryKey key (trimS (if extractURL body = emptyS then t1 else emptyS))
        cfg.defaultYear [trimS t0]).map
        (fun k => ⟨k, [trimS t0],
          trimS (if extractURL body = emptyS then t1 else emptyS),
          cfg.defaultYear, extractURL body, cfg.defaultVisited⟩) := by
    simp [parseRecord, hs, disamb]
  obtain ⟨k, hk2⟩ :
      ∃ k, entryKey key (trimS (if extractURL body = emptyS then t1 else emptyS))
        cfg.defaultYear [trimS t0] = some k := by
    unfold entryKey genKey
    by_cases hk : key = emptyS <;> simp [hk]
  refine ⟨⟨k, [trimS t0],
      trimS (if extractURL body = emptyS then t1 else emptyS),
      cfg.defaultYear, extractURL body, cfg.defaultVisited⟩, ?_, ?_, ?_⟩
  · rw [hp, hk2]
    rfl
  · simp [hs]
  · by_cases hu : extractURL body = emptyS <;> simp [hs, hu, trimS_emptyS]

/-- Witness for C7: a two-token body without URL keeps token 1 as
title; a two-token body with a URL leaves the title empty. -/
theorem parser_two_token_case_witness :
    (∃ e, parseRecord cfg0 recA = some e ∧
      e.authors = [trimS ((splitComma recA.value).getD 0 emptyS)] ∧
      e.title = (if extractURL recA.value = emptyS
                 then trimS ((splitComma recA.value).getD 1 emptyS) else emptyS)) ∧
    (∃ e, parseRecord cfg0 recB = some e ∧ e.title = emptyS) := by
  constructor
  · exact parser_two_token_case cfg0 ("wcdf")
      ("Ross Anderson, Why Cryptosystems Fail") (by decide)
  · obtain ⟨e, he, _, ht⟩ := parser_two_token_case cfg0 ("wcfu")
      ("Ross Anderson, \\url\x7bx.pdf\x7d") (by decide)
    exact ⟨e, he, ht.trans (by decide)⟩

/-- Helper: a list of length at least four starts with four cells. -/
theorem exists_four_cons {α : Type} : ∀ (l : List α), 4 ≤ l.length →
    ∃ a b c d t, l = a :: b :: c :: d :: t
  | a :: b :: c :: d :: t, _ => ⟨a, b, c, d, t, rfl⟩
  | [], h => absurd h (by simp)
  | [a], h => absurd h (by simp)
  | [a, b], h => absurd h (by simp)
  | [a, b, c], h => absurd h (by simp)

/-- Helper: the default disambiguation case in closed form. With at
least four tokens the title index is the last position, moved back one
slot by a found URL and one slot by a found year, and the author block
ends right before the title. -/
theorem disamb_default_eq (url t0 t1 t2 t3 : String) (ts : List String) :
    disamb url (t0 :: t1 :: t2 :: t3 :: ts) =
      ((t0 :: t1 :: t2 :: t3 :: ts).take
         (ts.length + 3 - urlShift url
           - yearShift (trailingYear (t0 :: t1 :: t2 :: t3 :: ts))),
       (t0 :: t1 :: t2 :: t3 :: ts).getD
         (ts.length + 3 - urlShift url
           - yearShift (trailingYear (t0 :: t1 :: t2 :: t3 :: ts))) emptyS,
       trailingYear (t0 :: t1 :: t2 :: t3 :: ts)) := by
  dsimp only [disamb, trailingYear, urlShift, yearShift]
  generalize extractYear ((t0 :: t1 :: t2 :: t3 :: ts).getD
    ((t0 :: t1 :: t2 :: t3 :: ts).length - 1) emptyS) = y1
  generalize extractYear ((t0 :: t1 :: t2 :: t3 :: ts).getD
    ((t0 :: t1 :: t2 :: t3 :: ts).length - 2) emptyS) = y2
  by_cases hu : url = emptyS <;> by_cases hy1 : y1 = 0 <;> by_cases hy2 : y2 = 0 <;>
    simp only [hu, hy1, hy2, if_true, if_false, eq_self_iff_true, ite_true, ite_false] <;>
    refine congrArg₂ Prod.mk ?_ (congrArg₂ Prod.mk ?_ rfl) <;> congr 1

/-- C1: with at least four comma tokens the parser assigns roles
positionally: the title index starts at the last token and the last
author index just before it; both move back one slot when extractURL
of the whole body is non-empty, and one more when a year is found in
the last token or, failing that, the second-to-last token, in which
case that year becomes the entry year; tokens 0 through the last
author index are the trimmed authors and the title-index token is the
trimmed title. -/
theorem parser_default_case_positional (cfg : Config) (key body : String)
    (h : 4 ≤ (splitComma body).length) :
    ∃ e, parseRecord cfg ⟨key, body⟩ = some e ∧
      e.authors = ((splitComma body).take
        ((splitComma body).length - 1 - urlShift (extractURL body)
          - yearShift (trailingYear (splitComma body)))).map trimS ∧
      e.title = trimS ((splitComma body).getD
        ((splitComma body).length - 1 - urlShift (extractURL body)
          - yearShift (trailingYear (splitComma body))) emptyS) ∧
      e.url = extractURL body ∧
      (trailingYear (splitComma body) ≠ 0 → e.year = trailingYear (splitComma body)) := by
  obtain ⟨t0, t1, t2, t3, ts, hs⟩ := exists_four_cons (splitComma body) h
  rw [hs]
  have hd := disamb_default_eq (extractURL body) t0 t1 t2 t3 ts
  set L : List String := t0 :: t1 :: t2 :: t3 :: ts with hL
  set q := trailingYear L with hq
  set d1 := urlShift (extractURL body) with hd1e
  set d2 := yearShift q with hd2e
  set idx := ts.length + 3 - d1 - d2 with hidxe
  have hIdx2 : L.length - 1 - d1 - d2 = idx := by
    simp only [hL, List.length_cons]
    omega
  rw [hIdx2]
  have hp : parseRecord cfg ⟨key, body⟩ =
      (entryKey key (trimS (L.getD idx emptyS))
        (if q = 0 then cfg.defaultYear else q) ((L.take idx).map trimS)).map
      (fun k => ⟨k, (L.take idx).map trimS, trimS (L.getD idx emptyS),
        (if q = 0 then cfg.defaultYear else q),
        extractURL body, cfg.defaultVisited⟩) := by
    simp only [parseRecord, hs, hd]
  have hpos : 0 < idx := by
    have h1 : d1 ≤ 1 := by
      rw [hd1e]
      unfold urlShift
      split <;> omega
    have h2 : d2 ≤ 1 := by
      rw [hd2e]
      unfold yearShift
      split <;> omega
    omega
  obtain ⟨m, hm⟩ := Nat.exists_eq_succ_of_ne_zero (Nat.pos_iff_ne_zero.mp hpos)
  have hA : (L.take idx).map trimS =
      trimS t0 :: ((t1 :: t2 :: t3 :: ts).take m).map trimS := by
    simp [hL, hm, List.take_succ_cons]
  obtain ⟨k, hk⟩ : ∃ k, entryKey key (trimS (L.getD idx emptyS))
      (if q = 0 then cfg.defaultYear else q) ((L.take idx).map trimS) = some k := by
    unfold entryKey
    by_cases hkey : key = emptyS
    · rw [if_pos hkey, hA]
      exact ⟨_, rfl⟩
    · rw [if_neg hkey]
      exact ⟨key, rfl⟩
  refine ⟨⟨k, (L.take idx).map trimS, trimS (L.getD idx emptyS),
    (if q = 0 then cfg.defaultYear else q), extractURL body, cfg.defaultVisited⟩,
    ?_, rfl, rfl, rfl, ?_⟩
  · rw [hp, hk]
    rfl
  · intro hyq
    simp [if_neg hyq]

/-- Witness for C1: the example body of the specification yields
authors Ross Anderson, title Why Cryptosystems Fail, year 1909 and
the URL of the record. -/
theorem parser_default_case_positional_witness :
    ∃ e, parseRecord cfg0 ⟨"wcf", exBody⟩ = some e ∧
      e.authors = [("Ross Anderson")] ∧
      e.title = ("Why Cryptosystems Fail") ∧
      e.year = 1909 ∧
      e.url = ("example.com/ra/wcf.pdf") := by
  obtain ⟨e, he, ha, ht, hu, hy⟩ :=
    parser_default_case_positional cfg0 ("wcf") exBody (by decide)
  refine ⟨e, he, ?_, ?_, ?_, ?_⟩
  · exact ha.trans (by decide)
  · exact ht.trans (by decide)
  · exact (hy (by decide)).trans (by decide)
  · exact hu.trans (by decide)

/-- Helper: a list is a Boolean prefix of itself followed by anything. -/
theorem isPrefixOf_append_self : ∀ (l t : List Char), l.isPrefixOf (l ++ t) = true
  | [], _ => by simp [List.isPrefixOf]
  | a :: l, t => by
    have ih := isPrefixOf_append_self l t
    simp [List.isPrefixOf, ih]

/-- Helper: a string starting with the pattern contains it. -/
theorem containsSub_append_self (pat t : List Char) :
    containsSub (pat ++ t) pat = true := by
  simp only [containsSub, decide_eq_true_eq]
  intro hemp
  have h0 : 0 ∈ subPositions pat (pat ++ t) := by
    unfold subPositions
    rw [List.mem_filter]
    refine ⟨by simp [List.mem_range], ?_⟩
    simp [isPrefixOf_append_self pat t]
  rw [hemp] at h0
  exact absurd h0 (List.not_mem_nil 0)

/-- Helper: every marker line contains the bibitem marker. -/
theorem containsSub_marker (k : String) :
    containsSub (mkMarker k).data bibItemTok = true := by
  have h : (mkMarker k).data = bibItemTok ++ (k.data ++ ['}']) := by
    simp [mkMarker]
  rw [h]
  exact containsSub_append_self bibItemTok (k.data ++ ['}'])

/-- Helper: the last occurrence of a character appended to a list free
of it is at the end. -/
theorem lastIdxCh_append_last (c : Char) : ∀ (l : List Char), c ∉ l →
    lastIdxCh c (l ++ [c]) = some l.length
  | [], _ => by simp [lastIdxCh]
  | a :: l, h => by
    have ih := lastIdxCh_append_last c l (fun hm => h (List.mem_cons_of_mem a hm))
    simp [lastIdxCh, ih]

/-- Helper: a string of length zero is the empty string. -/
theorem length_zero_eq_emptyS (s : String) (h : s.length = 0) : s = emptyS := by
  rcases s with ⟨d⟩
  cases d with
  | nil => rfl
  | cons a l => simp [String.length] at h

/-- Helper: extractKey recovers a brace-free key from its marker line. -/
theorem extractKeyGo_marker (k : String)
    (hk : ∀ c ∈ k.data, c ≠ '{' ∧ c ≠ '}') :
    extractKeyGo (mkMarker k) = KeyOutcome.ok k := by
  have hfst : fstIdxCh '{' (mkMarker k).data = some 8 := rfl
  have hnm : '}' ∉ bibItemTok ++ k.data := by
    intro hm
    rcases List.mem_append.mp hm with h1 | h2
    · exact absurd h1 (by decide)
    · exact (hk _ h2).2 rfl
  have hlast : lastIdxCh '}' (mkMarker k).data = some (bibItemTok ++ k.data).length := by
    have h : (mkMarker k).data = (bibItemTok ++ k.data) ++ ['}'] := by
      simp [mkMarker]
    rw [h]
    exact lastIdxCh_append_last '}' (bibItemTok ++ k.data) hnm
  have h9 : bibItemTok.length = 9 := rfl
  have hle : 8 + 1 ≤ (bibItemTok ++ k.data).length := by
    simp only [List.length_append]
    omega
  have hdrop : ((mkMarker k).data.drop (8 + 1)) = k.data ++ ['}'] := by
    have h : (mkMarker k).data = bibItemTok ++ (k.data ++ ['}']) := by
      simp [mkMarker]
    rw [h]
    have h9i : (8 + 1) = bibItemTok.length := rfl
    rw [h9i, List.drop_left]
  have htake : (bibItemTok ++ k.data).length - (8 + 1) = k.data.length := by
    simp only [List.length_append]
    omega
  unfold extractKeyGo
  rw [containsSub_marker k]
  simp only [Bool.true_eq_false, if_false, ite_false, if_neg]
  rw [hlast, hfst]
  simp only [if_pos hle, hdrop, htake]
  rw [List.take_left]

/-- Helper: accumulating lines one by one builds the separator-free
concatenation of the trimmed lines. -/
theorem foldl_appendLine : ∀ (b : List String) (acc : String),
    b.foldl appendLine acc = acc ++ trimmedConcat b
  | [], acc => (String.append_empty acc).symm
  | l :: b, acc => by
    simp only [List.foldl, trimmedConcat]
    rw [foldl_appendLine b (appendLine acc l)]
    unfold appendLine
    by_cases ht : 0 < (trimS l).length
    · rw [if_pos ht, String.append_assoc]
    · rw [if_neg ht]
      have h0 : trimS l = emptyS := length_zero_eq_emptyS _ (by omega)
      rw [h0]
      have he : emptyS ++ trimmedConcat b = trimmedConcat b := rfl
      rw [he]

/-- Helper: marker-free body lines only grow the accumulator. -/
theorem divLoop2_body : ∀ (b : List String),
    (∀ l ∈ b, containsSub l.data bibItemTok = false ∧
              containsSub l.data endBibTok = false) →
    ∀ (key acc : String) (L : List String),
      divLoop2 key acc (b ++ L) = divLoop2 key (b.foldl appendLine acc) L
  | [], _ => by
    intro key acc L
    rfl
  | l :: b, h => by
    intro key acc L
    have h1 := h l (List.mem_cons_self l b)
    have ih := divLoop2_body b (fun x hx => h x (List.mem_cons_of_mem l hx))
    simp only [List.cons_append, divLoop2, h1.1, h1.2, List.foldl,
      Bool.false_eq_true, if_false, ite_false]
    exact ih key (appendLine acc l) L

/-- Helper: prepending the empty string is the identity. -/
theorem emptyS_append (s : String) : emptyS ++ s = s := rfl

/-- Helper: inside an entry, the divider emits the pending record at
each marker and one record per remaining entry, closing at the end
marker. -/
theorem divLoop2_entries : ∀ (es : List (String × List String)) (key acc : String)
    (tail : List String),
    (∀ e ∈ es, (∀ c ∈ e.1.data, c ≠ '{' ∧ c ≠ '}') ∧
      ∀ l ∈ e.2, containsSub l.data bibItemTok = false ∧
                 containsSub l.data endBibTok = false) →
    divLoop2 key acc ((es.map mkEntryLines).flatten ++ endBibLine :: tail) =
      DivEvent.emit key acc ::
        (es.map (fun e => DivEvent.emit e.1 (trimmedConcat e.2)) ++ [DivEvent.closed])
  | [], key, acc, tail, _ => by
    have hnb : containsSub endBibLine.data bibItemTok = false := by decide
    have hend : containsSub endBibLine.data endBibTok = true := by decide
    simp only [List.map_nil, List.flatten_nil, List.nil_append, divLoop2, hnb, hend,
      Bool.false_eq_true, if_false, ite_false, if_true, ite_true]
  | e :: es, key, acc, tail, h => by
    have h1 := h e (List.mem_cons_self e es)
    have ih := divLoop2_entries es e.1 (trimmedConcat e.2) tail
      (fun x hx => h x (List.mem_cons_of_mem e hx))
    simp only [List.map_cons, List.flatten_cons, mkEntryLines, List.cons_append,
      List.append_assoc]
    rw [divLoop2]
    rw [if_pos (by rw [containsSub_marker e.1])]
    rw [extractKeyGo_marker e.1 h1.1]
    dsimp only
    rw [divLoop2_body e.2 h1.2 e.1 emptyS ((es.map mkEntryLines).flatten ++ endBibLine :: tail)]
    rw [foldl_appendLine, emptyS_append]
    rw [ih]

/-- Helper: the first loop ignores lines without the bibitem marker. -/
theorem divLoop1_skip : ∀ (pre : List String),
    (∀ l ∈ pre, containsSub l.data bibItemTok = false) →
    ∀ (rest : List String), divLoop1 (pre ++ rest) = divLoop1 rest
  | [], _ => by
    intro rest
    rfl
  | l :: pre, h => by
    intro rest
    have h1 := h l (List.mem_cons_self l pre)
    have ih := divLoop1_skip pre (fun x hx => h x (List.mem_cons_of_mem l hx))
    simp only [List.cons_append, divLoop1, h1, Bool.false_eq_true, if_false, ite_false]
    exact ih rest

/-- C4: on an input made of preamble, k well-formed entries and the
end marker, the divider emits exactly k records in source order, each
keyed as in the source and each with body equal to the separator-free
concatenation of its trimmed non-empty lines. -/
theorem divider_emits_all_records (pre : List String)
    (entries : List (String × List String)) (tail : List String)
    (hpre : ∀ l ∈ pre, containsSub l.data bibItemTok = false)
    (hkeys : ∀ e ∈ entries, e.1 ≠ emptyS ∧ ∀ c ∈ e.1.data, c ≠ '{' ∧ c ≠ '}')
    (hbodies : ∀ e ∈ entries, ∀ l ∈ e.2,
      containsSub l.data bibItemTok = false ∧ containsSub l.data endBibTok = false)
    (hne : entries ≠ []) :
    dividerRun (pre ++ (entries.map mkEntryLines).flatten ++ endBibLine :: tail) =
      entries.map (fun e => DivEvent.emit e.1 (trimmedConcat e.2)) ++ [DivEvent.closed] := by
  rcases entries with _ | ⟨e0, es⟩
  · exact absurd rfl hne
  unfold dividerRun
  rw [List.append_assoc, divLoop1_skip pre hpre]
  simp only [List.map_cons, List.flatten_cons, mkEntryLines, List.cons_append,
    List.append_assoc]
  rw [divLoop1]
  rw [if_pos (by rw [containsSub_marker e0.1])]
  rw [extractKeyGo_marker e0.1 (hkeys e0 (List.mem_cons_self e0 es)).2]
  dsimp only
  rw [divLoop2_body e0.2 (hbodies e0 (List.mem_cons_self e0 es)) e0.1 emptyS
    ((es.map mkEntryLines).flatten ++ endBibLine :: tail)]
  rw [foldl_appendLine, emptyS_append]
  rw [divLoop2_entries es e0.1 (trimmedConcat e0.2) tail
    (fun x hx => ⟨(hkeys x (List.mem_cons_of_mem e0 hx)).2, hbodies x (List.mem_cons_of_mem e0 hx)⟩)]

/-- Helper: with no end marker ahead, the inner loop emits its pending
record and then one record per completed entry, and at the end of the
input sends the error, the last partial record, and the close. -/
theorem divLoop2_unclosed : ∀ (es : List (String × List String))
    (elast : String × List String) (key acc : String),
    (∀ e ∈ es ++ [elast], (∀ c ∈ e.1.data, c ≠ '{' ∧ c ≠ '}') ∧
      ∀ l ∈ e.2, containsSub l.data bibItemTok = false ∧
                 containsSub l.data endBibTok = false) →
    divLoop2 key acc (((es ++ [elast]).map mkEntryLines).flatten) =
      DivEvent.emit key acc ::
        (es.map (fun e => DivEvent.emit e.1 (trimmedConcat e.2)) ++
          [DivEvent.errEv DivErr.bibUnclosed,
           DivEvent.emit elast.1 (trimmedConcat elast.2), DivEvent.closed])
  | [], elast, key, acc, h => by
    have h1 := h elast (by simp)
    simp only [List.nil_append, List.map_cons, List.map_nil, List.flatten_cons,
      List.flatten_nil, mkEntryLines, List.cons_append]
    rw [divLoop2]
    rw [if_pos (by rw [containsSub_marker elast.1])]
    rw [extractKeyGo_marker elast.1 h1.1]
    dsimp only
    rw [divLoop2_body elast.2 h1.2 elast.1 emptyS []]
    rw [foldl_appendLine, emptyS_append]
    rfl
  | e :: es, elast, key, acc, h => by
    have h1 := h e (List.mem_cons_self e (es ++ [elast]))
    have ih := divLoop2_unclosed es elast e.1 (trimmedConcat e.2)
      (fun x hx => h x (List.mem_cons_of_mem e hx))
    simp only [List.cons_append, List.map_cons, List.flatten_cons, mkEntryLines,
      List.append_assoc]
    rw [divLoop2]
    rw [if_pos (by rw [containsSub_marker e.1])]
    rw [extractKeyGo_marker e.1 h1.1]
    dsimp only
    rw [divLoop2_body e.2 h1.2 e.1 emptyS (((es ++ [elast]).map mkEntryLines).flatten)]
    rw [foldl_appendLine, emptyS_append]
    rw [ih]

/-- C5 amended: on an input whose entries are never closed by an end
marker, the divider emits one record per completed entry in source
order and, reaching the end of input, sends ErrBibUnclosed exactly
once, then emits the partially accumulated record (the key of the
last marker and the concatenation of its trimmed non-empty lines),
and then closes the stream, emitting nothing further: the error is
sent before the partial record, not after it. Marker lines whose
first opening brace lies beyond the last closing brace are excluded:
on those the program instead dies in the extractKey panic. -/
theorem divider_unclosed_amended (pre : List String)
    (entries : List (String × List String)) (elast : String × List String)
    (hpre : ∀ l ∈ pre, containsSub l.data bibItemTok = false ∧
      containsSub l.data endBibTok = false)
    (hkeys : ∀ e ∈ entries ++ [elast], ∀ c ∈ e.1.data, c ≠ '{' ∧ c ≠ '}')
    (hbodies : ∀ e ∈ entries ++ [elast], ∀ l ∈ e.2,
      containsSub l.data bibItemTok = false ∧ containsSub l.data endBibTok = false) :
    dividerRun (pre ++ ((entries ++ [elast]).map mkEntryLines).flatten) =
      entries.map (fun e => DivEvent.emit e.1 (trimmedConcat e.2)) ++
        [DivEvent.errEv DivErr.bibUnclosed,
         DivEvent.emit elast.1 (trimmedConcat elast.2), DivEvent.closed] := by
  unfold dividerRun
  rw [divLoop1_skip pre (fun l hl => (hpre l hl).1)]
  rcases entries with _ | ⟨e0, es⟩
  · have h1k := hkeys elast (by simp)
    have h1b := hbodies elast (by simp)
    simp only [List.nil_append, List.map_cons, List.map_nil, List.flatten_cons,
      List.flatten_nil, mkEntryLines, List.cons_append, List.map_nil]
    rw [divLoop1]
    rw [if_pos (by rw [containsSub_marker elast.1])]
    rw [extractKeyGo_marker elast.1 h1k]
    dsimp only
    rw [divLoop2_body elast.2 h1b elast.1 emptyS []]
    rw [foldl_appendLine, emptyS_append]
    rfl
  · have h1k := hkeys e0 (List.mem_cons_self e0 (es ++ [elast]))
    have h1b := hbodies e0 (List.mem_cons_self e0 (es ++ [elast]))
    simp only [List.cons_append, List.map_cons, List.flatten_cons, mkEntryLines,
      List.append_assoc]
    rw [divLoop1]
    rw [if_pos (by rw [containsSub_marker e0.1])]
    rw [extractKeyGo_marker e0.1 h1k]
    dsimp only
    rw [divLoop2_body e0.2 h1b e0.1 emptyS (((es ++ [elast]).map mkEntryLines).flatten)]
    rw [foldl_appendLine, emptyS_append]
    rw [divLoop2_unclosed es elast e0.1 (trimmedConcat e0.2)
      (fun x hx => ⟨hkeys x (List.mem_cons_of_mem e0 hx),
        hbodies x (List.mem_cons_of_mem e0 hx)⟩)]

/-- Witness for C4 at a concrete two-entry bibliography. -/
theorem divider_emits_all_records_witness :
    dividerRun (pre4 ++ (entries4.map mkEntryLines).flatten ++ endBibLine :: tail4) =
      entries4.map (fun e => DivEvent.emit e.1 (trimmedConcat e.2)) ++ [DivEvent.closed] :=
  divider_emits_all_records pre4 entries4 tail4
    (by decide) (by decide) (by decide) (by decide)

/-- C5 counterexample: on a one-entry input without end marker the
divider sends the error before the partial record, not after it as
the claim orders the two. -/
theorem divider_unclosed_error_precedes_record :
    dividerRun lines5 =
      [DivEvent.errEv DivErr.bibUnclosed, DivEvent.emit ("k") ("body"), DivEvent.closed] ∧
    emitPrecedesError (dividerRun lines5) = false := by decide

/-- Witness for the amended C5: the one-entry unclosed input yields no
completed record, then the error, the partial record keyed k with
body body, and the close. -/
theorem divider_unclosed_amended_witness :
    dividerRun (([] : List String) ++
        ((([] : List (String × List String)) ++ [elast5]).map mkEntryLines).flatten) =
      ([] : List (String × List String)).map
          (fun e => DivEvent.emit e.1 (trimmedConcat e.2)) ++
        [DivEvent.errEv DivErr.bibUnclosed,
         DivEvent.emit elast5.1 (trimmedConcat elast5.2), DivEvent.closed] :=
  divider_unclosed_amended [] [] elast5 (by decide) (by decide) (by decide)

/-- Helper: the first survivor of dropWhile fails the predicate. -/
theorem head_dropWhile_not (p : Char → Bool) : ∀ (l : List Char) (c : Char),
    (l.dropWhile p).head? = some c → p c = false
  | [], c => fun h => by simp [List.dropWhile] at h
  | a :: l, c => fun h => by
    rw [List.dropWhile_cons] at h
    by_cases hp : p a = true
    · rw [if_pos hp] at h
      exact head_dropWhile_not p l c h
    · rw [if_neg hp] at h
      simp at h
      subst h
      simpa using hp

/-- Helper: a successful width-limited digit scan splits its input
into a maximal-within-width digit run and a remainder. -/
theorem scanVal_decomp (w : Nat) (r : List Char) (sgn : Int)
    (h : scanVal w r sgn ≠ 0) :
    ∃ ds rest, r = ds ++ rest ∧ ds ≠ [] ∧ (∀ c ∈ ds, c.isDigit = true) ∧
      ds.length ≤ w ∧
      (ds.length = w ∨ ∀ c, rest.head? = some c → c.isDigit = false) ∧
      scanVal w r sgn = sgn * (digitsVal ds : Int) := by
  by_cases hni : (r.takeWhile Char.isDigit).take w = []
  · exfalso
    apply h
    unfold scanVal
    rw [if_pos hni]
  · have hpre : List.IsPrefix ((r.takeWhile Char.isDigit).take w) r :=
      (List.take_prefix w (r.takeWhile Char.isDigit)).trans (List.takeWhile_prefix Char.isDigit)
    obtain ⟨t, ht⟩ := hpre
    refine ⟨(r.takeWhile Char.isDigit).take w, t, ht.symm, hni, ?_, ?_, ?_, ?_⟩
    · intro c hc
      exact List.mem_takeWhile_imp (List.mem_of_mem_take hc)
    · rw [List.length_take]
      exact min_le_left w _
    · by_cases hw : ((r.takeWhile Char.isDigit).take w).length = w
      · exact Or.inl hw
      · refine Or.inr (fun c hc => ?_)
        have hlt : (r.takeWhile Char.isDigit).length < w := by
          rw [List.length_take] at hw
          omega
        have hds : (r.takeWhile Char.isDigit).take w = r.takeWhile Char.isDigit :=
          List.take_of_length_le (Nat.le_of_lt hlt)
        have ht2 : r.takeWhile Char.isDigit ++ r.dropWhile Char.isDigit = r :=
          List.takeWhile_append_dropWhile Char.isDigit r
        rw [hds] at ht
        have htt : t = r.dropWhile Char.isDigit := by
          have h3 := ht.trans ht2.symm
          exact List.append_cancel_left h3
        rw [htt] at hc
        exact head_dropWhile_not Char.isDigit r c hc
    · unfold scanVal
      rw [if_neg hni]

/-- C3 amended: extractYear returns a non-zero value only when the
field is at most six characters long and consists of leading blanks,
an optional sign and a digit run of which the scan reads at most four
characters (sign included); the returned value is the signed value of
the digits read, the run may be shorter than four digits, and content
after the scanned digits is ignored rather than rejected. -/
theorem extractYear_amended_only_if (s : String) (h : extractYear s ≠ 0) :
    s.data.length ≤ 6 ∧
    ∃ sp sgn ds rest, s.data = sp ++ sgn ++ ds ++ rest ∧
      (∀ c ∈ sp, isScanSpace c = true) ∧
      (sgn = [] ∨ sgn = ['+'] ∨ sgn = ['-']) ∧
      ds ≠ [] ∧ (∀ c ∈ ds, c.isDigit = true) ∧
      sgn.length + ds.length ≤ 4 ∧
      (sgn.length + ds.length = 4 ∨ ∀ c, rest.head? = some c → c.isDigit = false) ∧
      extractYear s = (if sgn = ['-'] then (-1 : Int) else 1) * (digitsVal ds : Int) := by
  have hc : sscan4d s.data ≠ 0 ∧ s.data.length ≤ 6 := by
    by_contra hcc
    apply h
    unfold extractYear
    rw [if_neg hcc]
  have hval : extractYear s = sscan4d s.data := by
    unfold extractYear
    rw [if_pos hc]
  refine ⟨hc.2, ?_⟩
  have hy := hc.1
  have hsp : ∀ c ∈ s.data.takeWhile isScanSpace, isScanSpace c = true :=
    fun c hcm => List.mem_takeWhile_imp hcm
  have hsd : s.data.takeWhile isScanSpace ++ s.data.dropWhile isScanSpace = s.data :=
    List.takeWhile_append_dropWhile isScanSpace s.data
  rcases hdrop : s.data.dropWhile isScanSpace with _ | ⟨c, r⟩
  · exfalso
    apply hy
    unfold sscan4d
    rw [hdrop]
  · have hss : sscan4d s.data = if c = '+' then scanVal 3 r 1
        else if c = '-' then scanVal 3 r (-1) else scanVal 4 (c :: r) 1 := by
      unfold sscan4d
      rw [hdrop]
    by_cases hplus : c = '+'
    · subst hplus
      rw [hss, if_pos rfl] at hy hval
      obtain ⟨ds, rest, hr, hne, hdig, hlen, hstop, hsv⟩ := scanVal_decomp 3 r 1 hy
      refine ⟨s.data.takeWhile isScanSpace, ['+'], ds, rest, ?_, hsp,
        Or.inr (Or.inl rfl), hne, hdig,
        by simp only [List.length_singleton]; omega, ?_, ?_⟩
      · conv_lhs => rw [← hsd, hdrop, hr]
        simp
      · rcases hstop with h4 | hnd
        · exact Or.inl (by simp only [List.length_singleton]; omega)
        · exact Or.inr hnd
      · rw [hval, hsv]
        simp
    · by_cases hminus : c = '-'
      · subst hminus
        rw [hss, if_neg (by decide), if_pos rfl] at hy hval
        obtain ⟨ds, rest, hr, hne, hdig, hlen, hstop, hsv⟩ := scanVal_decomp 3 r (-1) hy
        refine ⟨s.data.takeWhile isScanSpace, ['-'], ds, rest, ?_, hsp,
          Or.inr (Or.inr rfl), hne, hdig,
          by simp only [List.length_singleton]; omega, ?_, ?_⟩
        · conv_lhs => rw [← hsd, hdrop, hr]
          simp
        · rcases hstop with h4 | hnd
          · exact Or.inl (by simp only [List.length_singleton]; omega)
          · exact Or.inr hnd
        · rw [hval, hsv]
          simp
      · rw [hss, if_neg hplus, if_neg hminus] at hy hval
        obtain ⟨ds, rest, hr, hne, hdig, hlen, hstop, hsv⟩ := scanVal_decomp 4 (c :: r) 1 hy
        refine ⟨s.data.takeWhile isScanSpace, [], ds, rest, ?_, hsp,
          Or.inl rfl, hne, hdig,
          by simp only [List.length_nil]; omega, ?_, ?_⟩
        · conv_lhs => rw [← hsd, hdrop, hr]
          simp
        · rcases hstop with h4 | hnd
          · exact Or.inl (by simp only [List.length_nil]; omega)
          · exact Or.inr hnd
        · rw [hval, hsv]
          simp

/-- Witness for the amended C3 at the plain year field 1909. -/
theorem extractYear_amended_only_if_witness :
    yr1909.data.length ≤ 6 ∧
    ∃ sp sgn ds rest, yr1909.data = sp ++ sgn ++ ds ++ rest ∧
      (∀ c ∈ sp, isScanSpace c = true) ∧
      (sgn = [] ∨ sgn = ['+'] ∨ sgn = ['-']) ∧
      ds ≠ [] ∧ (∀ c ∈ ds, c.isDigit = true) ∧
      sgn.length + ds.length ≤ 4 ∧
      (sgn.length + ds.length = 4 ∨ ∀ c, rest.head? = some c → c.isDigit = false) ∧
      extractYear yr1909 = (if sgn = ['-'] then (-1 : Int) else 1) * (digitsVal ds : Int) :=
  extractYear_amended_only_if yr1909 (by decide)
